import Mathlib

/-!
Verification of the "Delivery Escape" ski game (React/TypeScript source).

The development shallowly embeds the game's core logic:
  * the cook-minigame state machine and the shared `fishInventory` resource
    (App component: `handleSlotTap`, `handleCollectFish`, `handleDeliverFish`,
    the cooking interval);
  * the avalanche hazard controller (GameCanvas `updatePhysics`, avalanche block);
  * the landing-angle classification (GameCanvas `updatePhysics`, landing block);
  * obstacle / cabin / power-up interaction folds;
  * an idle-player run of the simulation loop (flat ground, no input, no entities).

Numbers that the source manipulates as IEEE doubles are modelled as exact
rationals (ℚ) where the code only uses field operations and comparisons, and as
reals (ℝ) where π and trigonometric normalization are involved.
-/

namespace DeliveryEscape

/-! ### Cook minigame data model (types.ts `GrillSlot`, App.tsx state)

The source slot is `{id, progress, state, isCooking}`; the string `id` is inert
(never branched on), so it is omitted here. -/

inductive FishCookState where
  | raw
  | perfect
  | burnt
  deriving DecidableEq

structure GrillSlot where
  progress : ℚ
  state : FishCookState
  isCooking : Bool
  deriving DecidableEq

/-- Initial grill: three empty slots (App.tsx `useState` initializer and
`startGame`). -/
def initSlots : List GrillSlot :=
  [⟨0, .raw, false⟩, ⟨0, .raw, false⟩, ⟨0, .raw, false⟩]

/-- One cooking-interval update of a single slot (App.tsx lines 59-76):
progress advances by 0.8 while cooking; `> 100` means burnt, which is
immediately auto-discarded back to an empty raw slot; `> 60` means perfect. -/
def cookSlotStep (slot : GrillSlot) : GrillSlot :=
  if slot.isCooking = false then slot
  else
    let newProgress := slot.progress + 0.8
    let newState : FishCookState :=
      if newProgress > 100 then .burnt
      else if newProgress > 60 then .perfect
      else slot.state
    if newState = .burnt then { slot with isCooking := false, progress := 0, state := .raw }
    else { slot with progress := newProgress, state := newState }

/-- One firing of the cooking interval over all slots (App.tsx `setGrillSlots
(prev => prev.map ...)`). -/
def cookTick (slots : List GrillSlot) : List GrillSlot :=
  slots.map cookSlotStep

/-- App.tsx `handleCollectFish` (lines 82-94): place a raw fish on the first
slot that is not cooking (`findIndex(s => !s.isCooking)` followed by a copy
with that index replaced); if every slot is cooking the request is silently
dropped.  The recursion below is that find-first-and-replace. -/
def handleCollectFish : List GrillSlot → List GrillSlot
  | [] => []
  | s :: rest =>
    if s.isCooking = false then { s with isCooking := true, progress := 0, state := .raw } :: rest
    else s :: handleCollectFish rest

/-- Reset of a tapped slot (App.tsx line 108). -/
def slotReset (s : GrillSlot) : GrillSlot :=
  { s with isCooking := false, progress := 0, state := .raw }

/-- App.tsx `handleSlotTap` (lines 96-115): look up the tapped slot; no-op
unless it is cooking; if it is cooking in `perfect` state and the external
inventory is below 3, increment the inventory and reset the slot; in every
other case (raw, or perfect with a full inventory) nothing changes.
A tap with an out-of-range index is a JS `TypeError` in the source; the UI
only produces indices 0..2, and the `none` branch is unreachable there. -/
def handleSlotTap (slots : List GrillSlot) (inv : ℤ) (i : ℕ) : List GrillSlot × ℤ :=
  match slots[i]? with
  | none => (slots, inv)
  | some slot =>
    if slot.isCooking = false then (slots, inv)
    else if slot.state = FishCookState.perfect then
      if inv < 3 then (slots.set i (slotReset slot), inv + 1)
      else (slots, inv)
    else (slots, inv)

/-- App.tsx `handleDeliverFish` (lines 117-119): decrement, floored at 0. -/
def handleDeliverFish (inv : ℤ) : ℤ :=
  max 0 (inv - 1)

/-! ### The shared inventory resource and its mutating events (App.tsx)

`fishInventory` is owned by the App component.  The only code paths that ever
call `setFishInventory` are `startGame` (reset to 0), `handleSlotTap`
(increment guarded by `< 3`) and `handleDeliverFish` (floored decrement);
`handleCollectFish` and the cooking interval touch only the grill slots. -/

structure AppInv where
  fishInventory : ℤ
  grillSlots : List GrillSlot
  deriving DecidableEq

/-- Initial App state for a run (`startGame`). -/
def initApp : AppInv :=
  { fishInventory := 0, grillSlots := initSlots }

inductive AppEvent where
  | tap (i : ℕ)
  | deliver
  | cook
  | collect
  | reset
  deriving DecidableEq

/-- Dispatch of the App-level handlers. -/
def applyEvent (st : AppInv) : AppEvent → AppInv
  | .tap i =>
    let r := handleSlotTap st.grillSlots st.fishInventory i
    { fishInventory := r.2, grillSlots := r.1 }
  | .deliver => { st with fishInventory := handleDeliverFish st.fishInventory }
  | .cook => { st with grillSlots := cookTick st.grillSlots }
  | .collect => { st with grillSlots := handleCollectFish st.grillSlots }
  | .reset => initApp

/-- App state after a sequence of events from a fresh run. -/
def runApp (evs : List AppEvent) : AppInv :=
  evs.foldl applyEvent initApp

/-! ### Avalanche hazard controller (GameCanvas.tsx `updatePhysics`, lines 773-813)

The avalanche target speed is a function of elapsed wall-clock seconds since
run start.  Constants are taken verbatim from the source comments and code. -/

/-- Avalanche target speed before the invincibility rebate (lines 784-801). -/
def avTargetSpeedBase (e : ℚ) : ℚ :=
  if e < 30 then 9 + 0.15 * e
  else if e < 90 then 13.5 + 0.2 * (e - 30)
  else if e < 120 then 25.5 + 0.075 * (e - 90)
  else if e < 180 then 27.75 + 0.03 * (e - 120)
  else 29.55 + 0.01 * (e - 180)

/-- Avalanche target speed including the invincibility rebate (line 803:
`if (p.invincibleTimer > 0) avTargetSpeed -= 2`). -/
def avSpeed (e : ℚ) (invincible : Bool) : ℚ :=
  avTargetSpeedBase e - (if invincible then 2 else 0)

/-- One avalanche advance (lines 803-806): add the target speed, then clamp so
the boundary never passes `player.x + 100`.  `px` is the player's x-position
after the positional update earlier in the same tick. -/
def avalancheStep (px av e : ℚ) (invincible : Bool) : ℚ :=
  let a := av + avSpeed e invincible
  if a > px + 100 then px + 100 else a

/-! ### Idle-player run of the simulation loop

This is `updatePhysics` specialized to the scenario named by the spec:
a player who never presses input (`isHoldingRef.current = false`), on flat
ground of height `G` (`getGroundY` returns `{y: G, angle: 0}` everywhere),
with no obstacles, decorations or power-ups spawned.  In that world:
  * all three timers (`invincibleTimer`, `flightTimer`, `boostTimer`) start at
    0 and nothing ever sets them, so the target speed is always `MAX_SPEED =
    20` (lines 609-613) and the flight branches are never taken;
  * `rotation` starts at 0, is only ever re-assigned to the ground angle 0 and
    is never advanced (input is never held), so on every new ground contact
    `angleDiff = 0`, which is below both landing thresholds, and
    `backflipCount = 0`: the landing block (lines 652-687) neither crashes nor
    scores, leaving `vx` untouched;
  * the obstacle / cabin / power-up folds (lines 711-771) run over empty lists.
The remaining per-tick state is exactly the fields below. -/

structure IdleState where
  x : ℚ
  y : ℚ
  vx : ℚ
  vy : ℚ
  grounded : Bool
  dead : Bool
  av : ℚ
  deriving DecidableEq

/-- Horizontal speed easing (lines 616-620) with target `MAX_SPEED = 20`,
`FRICTION = 0.99`. -/
def easeVx (vx : ℚ) : ℚ :=
  if vx < 20 then vx + 0.1 else vx * 0.99

/-- Asymmetric gravity while not in flight mode (lines 626-633):
`GRAVITY = 0.6` while rising, 0.3 while falling. -/
def gravityVy (vy : ℚ) : ℚ :=
  if vy < 0 then vy + 0.6 else vy + 0.3

structure IdleTickOut where
  s : IdleState
  gameOver : Option ℤ

/-- One `updatePhysics` call in the idle world.  `G` is the flat ground height
and `e` the elapsed seconds since run start.  Order follows the source: speed
easing, positional update, gravity, ground collision (threshold `groundY -
15`, taken when `p.y >= threshold && p.vy >= 0`), avalanche advance, loss
check (`avalancheX > p.x - 30` marks the player dead and reports
`Math.floor(p.x / 10)` as the final score, lines 808-813). -/
def idleTick (G e : ℚ) (st : IdleState) : IdleTickOut :=
  let vx := easeVx st.vx
  let x := st.x + vx
  let y0 := st.y + st.vy
  let vy0 := gravityVy st.vy
  let contact : Bool := decide (y0 ≥ G - 15) && decide (vy0 ≥ 0)
  let av := avalancheStep x st.av e false
  let deadNow : Bool := decide (av > x - 30)
  { s := { x := x
           y := if contact then G - 15 else y0
           vx := vx
           vy := if contact then 0 else vy0
           grounded := contact
           dead := st.dead || deadNow
           av := av }
    gameOver := if deadNow then some ⌊x / 10⌋ else none }

/-- Initial player and avalanche state (`initGame`, lines 409-430): the player
starts at `x = 100` with `vx = BASE_SPEED = 8`, the avalanche at `-800`. -/
def initIdle : IdleState :=
  { x := 100, y := 200, vx := 8, vy := 0, grounded := false, dead := false, av := -800 }

/-- Session wrapper: `gameLoop` runs `updatePhysics` only while the session is
PLAYING; `onGameOver` moves the session to GAME_OVER, which stops the loop
(App.tsx `handleGameOver` + the `gameState` effect cancelling the animation
frame).  `overCount` counts game-over notifications delivered to the App. -/
structure Session where
  st : IdleState
  playing : Bool
  overCount : ℕ
  deriving DecidableEq

/-- One frame of the session.  Tick `n` observes elapsed time `n * dt` seconds
(`dt` is the wall-clock frame period). -/
def sessionStep (G dt : ℚ) (n : ℕ) (ss : Session) : Session :=
  if ss.playing then
    let out := idleTick G ((n : ℚ) * dt) ss.st
    { st := out.s
      playing := out.gameOver.isNone
      overCount := ss.overCount + (if out.gameOver.isSome then 1 else 0) }
  else ss

/-- The idle run: session state after `n` frames. -/
def runSession (G dt : ℚ) : ℕ → Session
  | 0 => { st := initIdle, playing := true, overCount := 0 }
  | n + 1 => sessionStep G dt n (runSession G dt n)

/-! ### Obstacle collision (GameCanvas.tsx `updatePhysics`, lines 711-729) and
obstacle cleanup (`updateTerrain`, line 579)

An obstacle is `{x, y, type, width, height, passed}`; only `x`, `height` and
`passed` are ever read by the collision and cleanup code. -/

structure Obstacle where
  x : ℚ
  height : ℚ
  passed : Bool
  deriving DecidableEq

/-- The collision test of lines 719-720: the player is inside the ±7 band
around the obstacle and below the obstacle's top (`gy` is `getGroundY(obs.x).y`;
canvas y grows downward, so `p.y > obsY - obsHeight` means "not cleared"). -/
def obstacleHitCond (px py gy : ℚ) (obs : Obstacle) : Bool :=
  decide (px > obs.x - 7) && decide (px < obs.x + 7) && decide (py > gy - obs.height)

/-- One tick's effect on a single obstacle's flag (lines 711-727): the whole
fold is skipped while invincible or in flight; an already-`passed` obstacle
is skipped; a hit marks the obstacle `passed` (the crash response on the
player is modelled separately). -/
def obstacleStep (px py gy : ℚ) (invincible flight : Bool) (obs : Obstacle) : Obstacle :=
  if invincible || flight then obs
  else if obs.passed then obs
  else if obstacleHitCond px py gy obs then { obs with passed := true }
  else obs

/-- Cleanup of the obstacle list (updateTerrain line 579): remove exactly the
front element, and only when it has fallen behind `player.x - GAME_WIDTH`
(`GAME_WIDTH = 720`). -/
def cleanupObstacles (px : ℚ) : List Obstacle → List Obstacle
  | [] => []
  | o :: rest => if o.x < px - 720 then rest else o :: rest

/-- Modelled from the claim under examination: a `passed` flag that is also
set once the player can no longer collide with the obstacle because the
player's (monotonically increasing) x-position has moved beyond the ±7
collision band.  Used only to compare the claimed behaviour with
`obstacleStep`. -/
def obstaclePassedSpec (px py gy : ℚ) (invincible flight : Bool) (obs : Obstacle) : Bool :=
  (obstacleStep px py gy invincible flight obs).passed || decide (px ≥ obs.x + 7)

/-! ### Cabin delivery (GameCanvas.tsx `updatePhysics`, lines 732-751)

`p.fishInventory` is assigned exactly once per tick, at line 601
(`p.fishInventory = fishInventoryRef.current`), and is never written again
during `updatePhysics`; `onDeliverFish` goes through React's `setFishInventory`
and therefore cannot change either `p.fishInventory` or
`fishInventoryRef.current` before `updatePhysics` returns.  The fold below
hence carries the snapshot `σ` unchanged through the whole decoration list. -/

inductive DecKind where
  | treeTall
  | treeShort
  | cabin
  deriving DecidableEq

structure Decoration where
  x : ℚ
  y : ℚ
  kind : DecKind
  delivered : Bool
  deriving DecidableEq

/-- Eligibility test of lines 733-738: an undelivered cabin, the player within
±100 horizontally and within 100 vertically. -/
def cabinEligible (px py : ℚ) (d : Decoration) : Bool :=
  decide (d.kind = DecKind.cabin) && !d.delivered &&
    decide (px > d.x - 100) && decide (px < d.x + 100) && decide (|py - d.y| < 100)

/-- The cabin fold of lines 732-751 as executed by the source: every
decoration's delivery test reads the same start-of-tick snapshot `σ` of the
inventory.  Returns the updated decoration list and the number of
`onDeliverFish` events emitted during the tick. -/
def processCabins (σ : ℤ) (px py : ℚ) : List Decoration → List Decoration × ℕ
  | [] => ([], 0)
  | d :: rest =>
    if cabinEligible px py d && decide (σ > 0) then
      ({ d with delivered := true } :: (processCabins σ px py rest).1,
        (processCabins σ px py rest).2 + 1)
    else (d :: (processCabins σ px py rest).1, (processCabins σ px py rest).2)

/-- Modelled from the spec's concurrency requirement: the same fold, but each
delivery's decrement is immediately visible to the checks performed later in
the same tick (the inventory is threaded through the fold instead of being a
snapshot).  Used only to compare the claimed behaviour with `processCabins`. -/
def processCabinsFresh (inv : ℤ) (px py : ℚ) : List Decoration → List Decoration × ℕ
  | [] => ([], 0)
  | d :: rest =>
    if cabinEligible px py d && decide (inv > 0) then
      ({ d with delivered := true } :: (processCabinsFresh (inv - 1) px py rest).1,
        (processCabinsFresh (inv - 1) px py rest).2 + 1)
    else (d :: (processCabinsFresh inv px py rest).1, (processCabinsFresh inv px py rest).2)

/-- `handleDeliverFish` applied `n` times: the external inventory after a tick
that emitted `n` deliver events. -/
def deliverFold : ℕ → ℤ → ℤ
  | 0, inv => inv
  | n + 1, inv => deliverFold n (handleDeliverFish inv)

/-! ### Power-up pickup (GameCanvas.tsx `updatePhysics`, lines 754-771) -/

inductive PUKind where
  | fish
  | sunglasses
  deriving DecidableEq

structure PowerUp where
  x : ℚ
  y : ℚ
  kind : PUKind
  collected : Bool
  deriving DecidableEq

/-- The pickup test of lines 756-757: `Math.hypot(p.x - pu.x, p.y - pu.y) < 50`,
stated equivalently on squares (both sides are nonnegative). -/
def pickupInRange (px py : ℚ) (pu : PowerUp) : Bool :=
  decide ((px - pu.x) ^ 2 + (py - pu.y) ^ 2 < 2500)

/-- Effect of one tick on a single power-up (lines 754-771): an uncollected
power-up in range is marked collected; a fish emits the `onCollectFish` event
(second component `true`); sunglasses instead grant invincibility and a hop on
the player, modelled elsewhere.  The external inventory is not an input: the
fish branch calls `onCollectFish`, which only touches the grill slots. -/
def pickupOne (px py : ℚ) (pu : PowerUp) : PowerUp × Bool :=
  if pu.collected then (pu, false)
  else if pickupInRange px py pu then
    ({ pu with collected := true }, decide (pu.kind = PUKind.fish))
  else (pu, false)

/-- Modelled from the spec sentence under examination for the fish-pickup
claim: a collect event that increments the external inventory, applied only
when the inventory is below its capacity of 3.  Used only to compare the
claimed behaviour with the source's `handleCollectFish`. -/
def specFishCollect (inv : ℤ) : ℤ :=
  if inv < 3 then inv + 1 else inv

/-! ### Score reporting (GameCanvas.tsx `updatePhysics`)

`p.score` is an accumulator that is only ever written (lines 679-684: landing
bonuses; line 745: cabin bonus) and never read: both the per-tick HUD report
(line 830) and the one-shot game-over report (line 811) compute
`Math.floor(p.x / 10)` directly from the position. -/

structure PlayerScore where
  x : ℚ
  score : ℤ
  boostTimer : ℤ
  deriving DecidableEq

/-- Per-tick HUD score (line 830: `onScoreUpdate(Math.floor(p.x / 10), ...)`). -/
def hudScore (p : PlayerScore) : ℤ :=
  ⌊p.x / 10⌋

/-- One-shot final score at death (line 811:
`onGameOver(Math.floor(p.x / 10))`). -/
def gameOverScore (p : PlayerScore) : ℤ :=
  ⌊p.x / 10⌋

/-- Perfect-landing reward (lines 675-680): boost timer `60 + 30 * count` and
`count * 300` points into the accumulator. -/
def applyPerfectLanding (p : PlayerScore) (count : ℕ) : PlayerScore :=
  { p with boostTimer := 60 + 30 * (count : ℤ), score := p.score + (count : ℤ) * 300 }

/-- Safe-landing reward (lines 682-683): `count * 150` points. -/
def applySafeLanding (p : PlayerScore) (count : ℕ) : PlayerScore :=
  { p with score := p.score + (count : ℤ) * 150 }

/-- Cabin-delivery reward on the player (line 745): 500 points. -/
def applyCabinBonus (p : PlayerScore) : PlayerScore :=
  { p with score := p.score + 500 }

/-! ### Landing classification (GameCanvas.tsx `updatePhysics`, lines 652-693)

Taken on a new ground contact (`!p.isGrounded` on entry) outside flight mode.
Rotation is in radians; the source normalizes with the JavaScript `%`
operator, which is the truncated remainder (sign of the dividend), followed by
two conditional shifts. -/

open Real in
/-- JavaScript truncation toward zero, as a real number. -/
noncomputable def jsTrunc (x : ℝ) : ℝ :=
  if 0 ≤ x then (⌊x⌋ : ℝ) else (⌈x⌉ : ℝ)

/-- JavaScript `a % b`: truncated remainder. -/
noncomputable def jsMod (a b : ℝ) : ℝ :=
  a - b * jsTrunc (a / b)

/-- Lines 654-656: `normRot = rotation % 2π`, then subtract `2π` if above `π`,
then add `2π` if below `-π`. -/
noncomputable def normalizeRotation (r : ℝ) : ℝ :=
  let n0 := jsMod r (2 * Real.pi)
  let n1 := if n0 > Real.pi then n0 - 2 * Real.pi else n0
  if n1 < -Real.pi then n1 + 2 * Real.pi else n1

/-- Line 658: `Math.abs(normRot - groundAngle)`. -/
noncomputable def angleDiff (rot g : ℝ) : ℝ :=
  |normalizeRotation rot - g|

/-- Line 661: 30 degrees in radians. -/
noncomputable def PERFECT_THRESHOLD : ℝ :=
  30 * (Real.pi / 180)

/-- Line 662: 70 degrees in radians. -/
noncomputable def CRASH_THRESHOLD : ℝ :=
  70 * (Real.pi / 180)

inductive LandingOutcome where
  | crash
  | perfect (points : ℕ)
  | safe (points : ℕ)
  | plain
  deriving DecidableEq

/-- The classification of lines 664-686: crash when the angular difference
strictly exceeds the crash threshold and the player is not invincible;
otherwise, with at least one accumulated rotation, a boosted `300 * count`
bonus when strictly inside the perfect threshold, else a `150 * count` bonus;
otherwise no effect.  `points` records the score increment. -/
noncomputable def classifyLanding (rot g : ℝ) (invincible : Bool) (backflips : ℕ) :
    LandingOutcome :=
  if angleDiff rot g > CRASH_THRESHOLD ∧ invincible = false then .crash
  else if backflips > 0 then
    if angleDiff rot g < PERFECT_THRESHOLD then .perfect (backflips * 300)
    else .safe (backflips * 150)
  else .plain

/-- Modelled from the claim under examination: normalization of the rotation
into the half-open interval `(-π, π]` (the representative of `r` modulo `2π`
in that interval).  Used only to compare the claimed normalization with
`normalizeRotation`. -/
noncomputable def specNormalize (r : ℝ) : ℝ :=
  r - 2 * Real.pi * ⌈(r - Real.pi) / (2 * Real.pi)⌉

/-! ## Theorems -/

/-! ### C10: reported scores are position-based only -/

/-- C10: the score reported to the HUD every tick and the final score
reported at death are both exactly `⌊player.x / 10⌋`; the internal
`player.score` accumulator, which receives the landing bonuses and the
cabin-delivery bonus, never influences either reported value. -/
theorem C10_reported_score_ignores_accumulator (p : PlayerScore) (n : ℕ) (s : ℤ) :
    hudScore p = ⌊p.x / 10⌋ ∧ gameOverScore p = ⌊p.x / 10⌋ ∧
    hudScore (applyPerfectLanding p n) = hudScore p ∧
    hudScore (applySafeLanding p n) = hudScore p ∧
    hudScore (applyCabinBonus p) = hudScore p ∧
    hudScore { p with score := s } = hudScore p ∧
    gameOverScore { p with score := s } = gameOverScore p ∧
    gameOverScore (applyPerfectLanding p n) = gameOverScore p ∧
    gameOverScore (applySafeLanding p n) = gameOverScore p ∧
    gameOverScore (applyCabinBonus p) = gameOverScore p :=
  ⟨rfl, rfl, rfl, rfl, rfl, rfl, rfl, rfl, rfl, rfl⟩

/-! ### C7: tapping a grill slot -/

/-- C7: tap-slot(i) is a no-op unless slot i is cooking; a cooking slot in
`perfect` state with inventory below 3 collects (inventory + 1, slot reset to
empty/raw/not-cooking, other slots untouched); a cooking slot in `raw` state,
or a `perfect` slot with a full inventory, changes nothing. -/
theorem C7_tap_slot (slots : List GrillSlot) (inv : ℤ) (i : ℕ) (slot : GrillSlot)
    (hget : slots[i]? = some slot) :
    (slot.isCooking = false → handleSlotTap slots inv i = (slots, inv)) ∧
    (slot.isCooking = true → slot.state = FishCookState.raw →
      handleSlotTap slots inv i = (slots, inv)) ∧
    (slot.isCooking = true → slot.state = FishCookState.perfect → inv = 3 →
      handleSlotTap slots inv i = (slots, inv)) ∧
    (slot.isCooking = true → slot.state = FishCookState.perfect → inv < 3 →
      (handleSlotTap slots inv i).2 = inv + 1 ∧
      (handleSlotTap slots inv i).1[i]? = some (slotReset slot) ∧
      ∀ j, j ≠ i → (handleSlotTap slots inv i).1[j]? = slots[j]?) := by
  have hlen : i < slots.length := by
    by_contra hl
    rw [List.getElem?_eq_none (Nat.le_of_not_lt hl)] at hget
    exact Option.noConfusion hget
  unfold handleSlotTap
  rw [hget]
  dsimp only
  refine ⟨?_, ?_, ?_, ?_⟩
  · intro hc; rw [if_pos hc]
  · intro hc hs
    rw [if_neg (by simp [hc]), if_neg (by simp [hs])]
  · intro hc hs h3
    rw [if_neg (by simp [hc]), if_pos hs, if_neg (by omega)]
  · intro hc hs h3
    rw [if_neg (by simp [hc]), if_pos hs, if_pos h3]
    refine ⟨rfl, ?_, ?_⟩
    · exact List.getElem?_set_eq_of_lt _ hlen
    · intro j hj
      exact List.getElem?_set_ne (fun h => hj h.symm)

/-- Witness for C7: a single cooking slot in `perfect` state, inventory 2:
tapping it yields inventory 3 and an empty raw slot. -/
theorem C7_tap_slot_witness :
    (([⟨61, FishCookState.perfect, true⟩] : List GrillSlot)[0]? =
        some (⟨61, FishCookState.perfect, true⟩ : GrillSlot)) ∧
    (handleSlotTap [⟨61, FishCookState.perfect, true⟩] 2 0).2 = 2 + 1 ∧
    (handleSlotTap [⟨61, FishCookState.perfect, true⟩] 2 0).1[0]? =
      some (slotReset ⟨61, FishCookState.perfect, true⟩) := by
  have h := C7_tap_slot [⟨61, FishCookState.perfect, true⟩] 2 0
    ⟨61, FishCookState.perfect, true⟩ rfl
  exact ⟨rfl, (h.2.2.2 rfl rfl (by norm_num)).1, (h.2.2.2 rfl rfl (by norm_num)).2.1⟩

/-! ### C4: the inventory invariant -/

theorem handleSlotTap_inv_cases (slots : List GrillSlot) (inv : ℤ) (i : ℕ) :
    (handleSlotTap slots inv i).2 = inv ∨
      ((handleSlotTap slots inv i).2 = inv + 1 ∧ inv < 3 ∧
        ∃ slot, slots[i]? = some slot ∧ slot.isCooking = true ∧
          slot.state = FishCookState.perfect) := by
  unfold handleSlotTap
  cases hget : slots[i]? with
  | none => exact Or.inl rfl
  | some slot =>
    dsimp only
    by_cases hc : slot.isCooking = false
    · rw [if_pos hc]; exact Or.inl rfl
    · rw [if_neg hc]
      by_cases hs : slot.state = FishCookState.perfect
      · rw [if_pos hs]
        by_cases h3 : inv < 3
        · rw [if_pos h3]
          exact Or.inr ⟨rfl, h3, slot, rfl, by simpa using hc, hs⟩
        · rw [if_neg h3]; exact Or.inl rfl
      · rw [if_neg hs]; exact Or.inl rfl

theorem applyEvent_inv_bounds (st : AppInv) (ev : AppEvent)
    (h0 : 0 ≤ st.fishInventory) (h3 : st.fishInventory ≤ 3) :
    0 ≤ (applyEvent st ev).fishInventory ∧ (applyEvent st ev).fishInventory ≤ 3 := by
  cases ev with
  | tap i =>
    rcases handleSlotTap_inv_cases st.grillSlots st.fishInventory i with h | h
    · simp only [applyEvent, h]; exact ⟨h0, h3⟩
    · simp only [applyEvent, h.1]
      constructor <;> [omega; exact h.2.1]
  | deliver =>
    simp only [applyEvent, handleDeliverFish]
    constructor <;> [exact le_max_left 0 _; omega]
  | cook => exact ⟨h0, h3⟩
  | collect => exact ⟨h0, h3⟩
  | reset => exact ⟨le_refl 0, by norm_num [applyEvent, initApp]⟩

theorem foldl_inv_bounds (evs : List AppEvent) (st : AppInv)
    (h0 : 0 ≤ st.fishInventory) (h3 : st.fishInventory ≤ 3) :
    0 ≤ (evs.foldl applyEvent st).fishInventory ∧
      (evs.foldl applyEvent st).fishInventory ≤ 3 := by
  induction evs generalizing st with
  | nil => exact ⟨h0, h3⟩
  | cons ev rest ih =>
    obtain ⟨a, b⟩ := applyEvent_inv_bounds st ev h0 h3
    simpa using ih (applyEvent st ev) a b

/-- C4: after any sequence of App events from a fresh run,
`0 ≤ fishInventory ≤ 3`; the cooking interval and a fish-to-grill collect
leave the inventory unchanged; a deliver event is a decrement floored at 0;
a tap either leaves the inventory unchanged or increments it by exactly 1,
the latter only when the tapped slot is cooking in `perfect` state and the
inventory is strictly below 3. -/
theorem C4_inventory_invariant (evs : List AppEvent) (st : AppInv) (i : ℕ) :
    (0 ≤ (runApp evs).fishInventory ∧ (runApp evs).fishInventory ≤ 3) ∧
    (applyEvent st AppEvent.cook).fishInventory = st.fishInventory ∧
    (applyEvent st AppEvent.collect).fishInventory = st.fishInventory ∧
    (applyEvent st AppEvent.deliver).fishInventory = max 0 (st.fishInventory - 1) ∧
    ((applyEvent st (AppEvent.tap i)).fishInventory = st.fishInventory ∨
      ((applyEvent st (AppEvent.tap i)).fishInventory = st.fishInventory + 1 ∧
        st.fishInventory < 3 ∧
        ∃ slot, st.grillSlots[i]? = some slot ∧ slot.isCooking = true ∧
          slot.state = FishCookState.perfect)) := by
  refine ⟨foldl_inv_bounds evs initApp (le_refl 0) (by norm_num [initApp]), rfl, rfl, rfl, ?_⟩
  exact handleSlotTap_inv_cases st.grillSlots st.fishInventory i

/-! ### C6: fish pickup and the collect event -/

/-- C6 counterexample: with inventory 0 (strictly below the capacity 3) the
collect event emitted by a fish pickup leaves the external inventory at 0
instead of incrementing it: in the source, `onCollectFish` only places the
fish on the grill (here the first slot starts cooking).  The claimed
behaviour `specFishCollect` would yield 1. -/
theorem C6_counterexample :
    (applyEvent initApp AppEvent.collect).fishInventory = 0 ∧
    specFishCollect 0 = 1 ∧
    (applyEvent initApp AppEvent.collect).fishInventory ≠ specFishCollect 0 ∧
    (applyEvent initApp AppEvent.collect).grillSlots ≠ initApp.grillSlots := by
  refine ⟨rfl, by norm_num [specFishCollect],
    by norm_num [specFishCollect, applyEvent, initApp], ?_⟩
  decide

theorem handleCollectFish_length (slots : List GrillSlot) :
    (handleCollectFish slots).length = slots.length := by
  induction slots with
  | nil => rfl
  | cons s rest ih =>
    unfold handleCollectFish
    split_ifs <;> simp [ih]

theorem handleCollectFish_countP (slots : List GrillSlot) :
    (handleCollectFish slots).countP (fun s => s.isCooking) =
      min (slots.countP (fun s => s.isCooking) + 1) slots.length := by
  induction slots with
  | nil => rfl
  | cons s rest ih =>
    unfold handleCollectFish
    have hle := List.countP_le_length (l := rest) (p := fun s => s.isCooking)
    by_cases hc : s.isCooking = false
    · rw [if_pos hc]
      simp [List.countP_cons, hc]
      omega
    · rw [if_neg hc]
      have hct : s.isCooking = true := by simpa using hc
      simp [List.countP_cons, hct, ih]
      omega

theorem handleCollectFish_fix_iff (slots : List GrillSlot) :
    handleCollectFish slots = slots ↔ slots.all (fun s => s.isCooking) = true := by
  induction slots with
  | nil => simp [handleCollectFish]
  | cons s rest ih =>
    unfold handleCollectFish
    by_cases hc : s.isCooking = false
    · rw [if_pos hc]
      constructor
      · intro h
        have hs := (List.cons_eq_cons.mp h).1
        have : s.isCooking = true := by rw [← hs]
        simp [this] at hc
      · intro h
        simp only [List.all_cons, Bool.and_eq_true] at h
        simp [h.1] at hc
    · rw [if_neg hc]
      have hct : s.isCooking = true := by simpa using hc
      simp [List.cons_eq_cons, hct, ih]

/-- C6 amended: a power-up in pickup range is always marked collected, and a
fish emits the collect event; but the event is routed to the grill, not to
the numeric inventory: the inventory is never changed by it, the grill keeps
its 3 slots, the number of cooking slots grows by 1 capped at the slot count,
and the event is a no-op exactly when every slot is already cooking (the
silent capacity-drop is the grill's, not the inventory's). -/
theorem C6_fish_pickup_collect (px py : ℚ) (pu : PowerUp) (st : AppInv)
    (slots : List GrillSlot) :
    (pickupOne px py pu).1.collected = (pu.collected || pickupInRange px py pu) ∧
    (pickupOne px py pu).2 =
      (!pu.collected && pickupInRange px py pu && decide (pu.kind = PUKind.fish)) ∧
    (applyEvent st AppEvent.collect).fishInventory = st.fishInventory ∧
    (handleCollectFish slots).length = slots.length ∧
    (handleCollectFish slots).countP (fun s => s.isCooking) =
      min (slots.countP (fun s => s.isCooking) + 1) slots.length ∧
    (handleCollectFish slots = slots ↔ slots.all (fun s => s.isCooking) = true) := by
  refine ⟨?_, ?_, rfl, handleCollectFish_length slots, handleCollectFish_countP slots,
    handleCollectFish_fix_iff slots⟩
  · unfold pickupOne
    by_cases h1 : pu.collected <;> by_cases h2 : pickupInRange px py pu <;>
      simp [h1, h2]
  · unfold pickupOne
    by_cases h1 : pu.collected <;> by_cases h2 : pickupInRange px py pu <;>
      simp [h1, h2]

/-! ### C5: within-tick visibility of inventory mutations -/

def cabinA : Decoration :=
  { x := 0, y := 0, kind := DecKind.cabin, delivered := false }

/-- C5 counterexample: two cabins are simultaneously in the delivery window
and the start-of-tick inventory snapshot is 1.  The source's fold delivers to
both cabins and emits two deliver events, because the second cabin's check
re-reads the same snapshot; a fold in which the decrement were visible to the
logic later in the same tick would deliver only to the first. -/
theorem C5_counterexample :
    (processCabins 1 0 0 [cabinA, cabinA]).2 = 2 ∧
    (processCabinsFresh 1 0 0 [cabinA, cabinA]).2 = 1 ∧
    (processCabins 1 0 0 [cabinA, cabinA]).1 =
      [{ cabinA with delivered := true }, { cabinA with delivered := true }] ∧
    (processCabinsFresh 1 0 0 [cabinA, cabinA]).1 =
      [{ cabinA with delivered := true }, cabinA] := by
  have he : cabinEligible 0 0 cabinA = true := by
    norm_num [cabinEligible, cabinA]
  refine ⟨?_, ?_, ?_, ?_⟩ <;>
    simp [processCabins, processCabinsFresh, he]

theorem deliverFold_of_nonneg (n : ℕ) (inv : ℤ) (h : 0 ≤ inv) :
    deliverFold n inv = max 0 (inv - n) := by
  induction n generalizing inv with
  | zero =>
    unfold deliverFold
    omega
  | succ m ih =>
    unfold deliverFold handleDeliverFish
    rw [ih (max 0 (inv - 1)) (le_max_left 0 _)]
    push_cast
    omega

/-- C5 amended: every cabin check in a tick reads the same start-of-tick
snapshot `σ` of the inventory — each decoration's outcome is a function of
that decoration and `σ` alone (the fold is a `map`), the number of deliver
events is the number of eligible cabins whenever `σ > 0`, and the deferred
deliver events reach the external inventory as a floored decrement per
event.  Mutations are therefore not visible to logic later in the same tick;
they land on the external resource afterwards. -/
theorem C5_snapshot_semantics (σ : ℤ) (px py : ℚ) (l : List Decoration)
    (n : ℕ) (inv : ℤ) :
    (processCabins σ px py l).1 =
      l.map (fun d => if cabinEligible px py d && decide (σ > 0)
        then { d with delivered := true } else d) ∧
    (processCabins σ px py l).2 =
      l.countP (fun d => cabinEligible px py d && decide (σ > 0)) ∧
    deliverFold (n + 1) inv = max 0 (inv - (n + 1 : ℤ)) := by
  refine ⟨?_, ?_, ?_⟩
  · induction l with
    | nil => rfl
    | cons d rest ih =>
      simp only [processCabins, List.map_cons]
      by_cases h : (cabinEligible px py d && decide (σ > 0)) = true
      · rw [if_pos h, if_pos h]
        dsimp only
        rw [ih]
      · rw [if_neg h, if_neg h]
        dsimp only
        rw [ih]
  · induction l with
    | nil => rfl
    | cons d rest ih =>
      simp only [processCabins, List.countP_cons]
      by_cases h : (cabinEligible px py d && decide (σ > 0)) = true
      · rw [if_pos h, if_pos h]
        dsimp only
        rw [ih]
      · rw [if_neg h, if_neg h]
        dsimp only
        rw [ih]
        omega
  · unfold deliverFold handleDeliverFish
    rw [deliverFold_of_nonneg n (max 0 (inv - 1)) (le_max_left 0 _)]
    omega

/-! ### C9: the obstacle `passed` flag -/

def obstacleA : Obstacle :=
  { x := 0, height := 30, passed := false }

/-- C9 counterexample: the player (x = 1000) is far beyond the ±7 collision
band of an unhit obstacle at x = 0, so the obstacle can never be collided
with again, yet the source leaves `passed = false`; the claimed behaviour
(`obstaclePassedSpec`, which also marks confirmed-cleared obstacles) gives
`true`. -/
theorem C9_counterexample :
    (obstacleStep 1000 0 0 false false obstacleA).passed = false ∧
    obstaclePassedSpec 1000 0 0 false false obstacleA = true := by
  have hh : obstacleHitCond 1000 0 0 { x := 0, height := 30, passed := false } = false := by
    norm_num [obstacleHitCond]
  constructor
  · simp [obstacleStep, obstacleA, hh]
  · norm_num [obstaclePassedSpec, obstacleStep, obstacleA, hh]

/-- C9 amended: the `passed` flag is set exactly on a hit — it becomes
`passed || (not invincible ∧ not flying ∧ hit-test)` and is hence terminal
(never cleared once true); obstacles confirmed cleared by the player keep
`passed = false` (they simply can no longer satisfy the hit-test, since the
player's x only grows); an obstacle is never mutated otherwise and is only
removed when, as the oldest element, it falls behind `player.x - 720` (one
removal per tick from the front). -/
theorem C9_passed_flag (px py gy : ℚ) (invincible flight : Bool) (obs : Obstacle)
    (o : Obstacle) (rest : List Obstacle) :
    (obstacleStep px py gy invincible flight obs).passed =
      (obs.passed || (!invincible && !flight && obstacleHitCond px py gy obs)) ∧
    (obstacleStep px py gy invincible flight obs).x = obs.x ∧
    (obstacleStep px py gy invincible flight obs).height = obs.height ∧
    cleanupObstacles px [] = [] ∧
    cleanupObstacles px (o :: rest) = (if o.x < px - 720 then rest else o :: rest) := by
  refine ⟨?_, ?_, ?_, rfl, rfl⟩ <;>
    (unfold obstacleStep
     cases invincible <;> cases flight <;>
       by_cases hp : obs.passed <;> by_cases hh : obstacleHitCond px py gy obs <;>
       simp [hp, hh])

/-! ### C8: the avalanche speed schedule -/

/-- C8 counterexample: the per-second rate of the second segment (0.2 for
30s-90s) is strictly steeper than that of the first (0.15 for 0s-30s), so the
rates are not progressively shallower across all segments. -/
theorem C8_counterexample :
    avTargetSpeedBase 1 - avTargetSpeedBase 0 = 0.15 ∧
    avTargetSpeedBase 31 - avTargetSpeedBase 30 = 0.2 ∧
    avTargetSpeedBase 31 - avTargetSpeedBase 30 > avTargetSpeedBase 1 - avTargetSpeedBase 0 := by
  norm_num [avTargetSpeedBase]

/-- C8 amended: the avalanche target speed is a continuous five-segment
piecewise-linear function of elapsed seconds (base of each segment = value at
the segment's start, plus a per-second rate times the seconds into the
segment); the rates decrease from the second segment on (0.2, 0.075, 0.03,
0.01), but the second segment is steeper than the first (0.15 < 0.2); while
invincible a fixed 2 is subtracted from the target speed. -/
theorem C8_avalanche_schedule (e : ℚ) :
    (0 ≤ e → e < 30 → avTargetSpeedBase e = 9 + 0.15 * e) ∧
    (30 ≤ e → e < 90 → avTargetSpeedBase e = 13.5 + 0.2 * (e - 30)) ∧
    (90 ≤ e → e < 120 → avTargetSpeedBase e = 25.5 + 0.075 * (e - 90)) ∧
    (120 ≤ e → e < 180 → avTargetSpeedBase e = 27.75 + 0.03 * (e - 120)) ∧
    (180 ≤ e → avTargetSpeedBase e = 29.55 + 0.01 * (e - 180)) ∧
    (avTargetSpeedBase 30 = 13.5 ∧ avTargetSpeedBase 90 = 25.5 ∧
      avTargetSpeedBase 120 = 27.75 ∧ avTargetSpeedBase 180 = 29.55) ∧
    ((0.075 : ℚ) < 0.2 ∧ (0.03 : ℚ) < 0.075 ∧ (0.01 : ℚ) < 0.03 ∧ (0.15 : ℚ) < 0.2) ∧
    avSpeed e true = avTargetSpeedBase e - 2 ∧
    avSpeed e false = avTargetSpeedBase e := by
  refine ⟨?_, ?_, ?_, ?_, ?_, ⟨?_, ?_, ?_, ?_⟩, by norm_num, by simp [avSpeed],
    by simp [avSpeed]⟩ <;>
    first
      | (intro h1 h2
         unfold avTargetSpeedBase
         split_ifs <;> first | rfl | linarith)
      | (intro h1
         unfold avTargetSpeedBase
         split_ifs <;> first | rfl | linarith)
      | norm_num [avTargetSpeedBase]

/-- Witness for C8: the second segment's formula at e = 45. -/
theorem C8_avalanche_schedule_witness :
    ((30 : ℚ) ≤ 45 ∧ (45 : ℚ) < 90) ∧ avTargetSpeedBase 45 = 13.5 + 0.2 * (45 - 30) :=
  ⟨⟨by norm_num, by norm_num⟩, (C8_avalanche_schedule 45).2.1 (by norm_num) (by norm_num)⟩

/-! ### C1: the avalanche boundary is monotone and clamped -/

theorem avTargetSpeedBase_ge_nine (e : ℚ) (he : 0 ≤ e) : 9 ≤ avTargetSpeedBase e := by
  unfold avTargetSpeedBase
  split_ifs <;> linarith

theorem avSpeed_nonneg (e : ℚ) (invincible : Bool) (he : 0 ≤ e) : 0 ≤ avSpeed e invincible := by
  have h := avTargetSpeedBase_ge_nine e he
  unfold avSpeed
  cases invincible <;> simp <;> linarith

/-- C1: during a tick whose pre-state satisfies the run invariants (boundary
at most `x + 100`, nonnegative horizontal speed, nonnegative elapsed time —
all true at `initGame` and re-established every tick), the avalanche advance
of lines 784-806 never moves the boundary backwards, and at the end of the
tick the boundary is at most `player.x + 100` (the player having moved to
`x + vx` earlier in the tick). -/
theorem C1_boundary_monotone_clamped (x vx av e : ℚ) (invincible : Bool)
    (hclamp : av ≤ x + 100) (hvx : 0 ≤ vx) (he : 0 ≤ e) :
    av ≤ avalancheStep (x + vx) av e invincible ∧
      avalancheStep (x + vx) av e invincible ≤ (x + vx) + 100 := by
  have hs := avSpeed_nonneg e invincible he
  unfold avalancheStep
  dsimp only
  split_ifs with h
  · constructor <;> linarith
  · constructor <;> linarith

/-! ### C3: landing classification -/

theorem jsMod_bounds (a b : ℝ) (hb : 0 < b) :
    -b < jsMod a b ∧ jsMod a b < b ∧ ∃ k : ℤ, jsMod a b = a - b * k := by
  have hab : b * (a / b) = a := by field_simp
  unfold jsMod jsTrunc
  by_cases hq : 0 ≤ a / b
  · rw [if_pos hq]
    have h1 : ((⌊a / b⌋ : ℤ) : ℝ) ≤ a / b := Int.floor_le _
    have h2 : a / b < ((⌊a / b⌋ : ℤ) : ℝ) + 1 := Int.lt_floor_add_one _
    have h3 : b * ((⌊a / b⌋ : ℤ) : ℝ) ≤ a := by
      calc b * ((⌊a / b⌋ : ℤ) : ℝ) ≤ b * (a / b) := by
            exact mul_le_mul_of_nonneg_left h1 hb.le
        _ = a := hab
    have h4 : a < b * (((⌊a / b⌋ : ℤ) : ℝ) + 1) := by
      calc a = b * (a / b) := hab.symm
        _ < b * (((⌊a / b⌋ : ℤ) : ℝ) + 1) := by exact mul_lt_mul_of_pos_left h2 hb
    refine ⟨by nlinarith, by nlinarith, ⟨⌊a / b⌋, rfl⟩⟩
  · rw [if_neg hq]
    have h1 : a / b ≤ ((⌈a / b⌉ : ℤ) : ℝ) := Int.le_ceil _
    have h2 : ((⌈a / b⌉ : ℤ) : ℝ) < a / b + 1 := Int.ceil_lt_add_one _
    have h3 : a ≤ b * ((⌈a / b⌉ : ℤ) : ℝ) := by
      calc a = b * (a / b) := hab.symm
        _ ≤ b * ((⌈a / b⌉ : ℤ) : ℝ) := by exact mul_le_mul_of_nonneg_left h1 hb.le
    have h4 : b * ((⌈a / b⌉ : ℤ) : ℝ) < a + b := by
      calc b * ((⌈a / b⌉ : ℤ) : ℝ) < b * (a / b + 1) := by
            exact mul_lt_mul_of_pos_left h2 hb
        _ = a + b := by rw [mul_add, hab, mul_one]
    refine ⟨by nlinarith, by nlinarith, ⟨⌈a / b⌉, rfl⟩⟩

theorem normalizeRotation_range (r : ℝ) :
    (-Real.pi ≤ normalizeRotation r ∧ normalizeRotation r ≤ Real.pi) ∧
    ∃ k : ℤ, normalizeRotation r = r - 2 * Real.pi * k := by
  have hpi := Real.pi_pos
  have hb : (0 : ℝ) < 2 * Real.pi := by linarith
  obtain ⟨hlo, hhi, k0, hk0⟩ := jsMod_bounds r (2 * Real.pi) hb
  unfold normalizeRotation
  dsimp only
  by_cases h1 : jsMod r (2 * Real.pi) > Real.pi
  · rw [if_pos h1, if_neg (by linarith)]
    exact ⟨⟨by linarith, by linarith⟩, ⟨k0 + 1, by rw [hk0]; push_cast; ring⟩⟩
  · rw [if_neg h1]
    push_neg at h1
    by_cases h2 : jsMod r (2 * Real.pi) < -Real.pi
    · rw [if_pos h2]
      exact ⟨⟨by linarith, by linarith⟩, ⟨k0 - 1, by rw [hk0]; push_cast; ring⟩⟩
    · rw [if_neg h2]
      push_neg at h2
      exact ⟨⟨h2, h1⟩, ⟨k0, hk0⟩⟩

theorem jsMod_zero_left (b : ℝ) : jsMod 0 b = 0 := by
  unfold jsMod jsTrunc
  simp

theorem normalizeRotation_zero : normalizeRotation 0 = 0 := by
  have hpi := Real.pi_pos
  unfold normalizeRotation
  rw [jsMod_zero_left]
  dsimp only
  rw [if_neg (show ¬((0 : ℝ) > Real.pi) by linarith)]
  rw [if_neg (show ¬((0 : ℝ) < -Real.pi) by linarith)]

theorem classify_crash_iff (rot g : ℝ) (inv : Bool) (n : ℕ) :
    classifyLanding rot g inv n = LandingOutcome.crash ↔
      (angleDiff rot g > CRASH_THRESHOLD ∧ inv = false) := by
  unfold classifyLanding
  split_ifs with h1 h2 h3 <;> simp_all

theorem classify_perfect_iff (rot g : ℝ) (inv : Bool) (n : ℕ) (pts : ℕ) :
    classifyLanding rot g inv n = LandingOutcome.perfect pts ↔
      (¬(angleDiff rot g > CRASH_THRESHOLD ∧ inv = false) ∧ 0 < n ∧
        angleDiff rot g < PERFECT_THRESHOLD ∧ pts = n * 300) := by
  unfold classifyLanding
  split_ifs with h1 h2 h3 <;> simp_all [eq_comm]

theorem classify_safe_iff (rot g : ℝ) (inv : Bool) (n : ℕ) (pts : ℕ) :
    classifyLanding rot g inv n = LandingOutcome.safe pts ↔
      (¬(angleDiff rot g > CRASH_THRESHOLD ∧ inv = false) ∧ 0 < n ∧
        ¬(angleDiff rot g < PERFECT_THRESHOLD) ∧ pts = n * 150) := by
  unfold classifyLanding
  split_ifs with h1 h2 h3 <;> simp_all [eq_comm]

theorem angleDiff_zero_neg (t : ℝ) (ht : 0 ≤ t) : angleDiff 0 (-t) = t := by
  unfold angleDiff
  rw [normalizeRotation_zero, zero_sub, neg_neg]
  exact abs_of_nonneg ht

/-- C3 counterexample: at `rotation = -π` (a landing during a backflip, half a
turn in) the source's normalization yields `-π`, which is outside the claimed
interval `(-π, π]`, and with ground angle 2 the source crashes
(`|-π - 2| > 70°`) while the claim's normalization to `(-π, π]` yields `π`,
whose difference `π - 2` is below the crash threshold: the claimed
classification disagrees with the code at this input. -/
theorem C3_counterexample :
    classifyLanding (-Real.pi) 2 false 0 = LandingOutcome.crash ∧
    normalizeRotation (-Real.pi) = -Real.pi ∧
    specNormalize (-Real.pi) = Real.pi ∧
    ¬(|specNormalize (-Real.pi) - 2| > CRASH_THRESHOLD) := by
  have hpi := Real.pi_pos
  have hgt := Real.pi_gt_three
  have hlt : Real.pi < 3.15 := Real.pi_lt_d2
  have hq : (-Real.pi) / (2 * Real.pi) = -(1 / 2) := by
    rw [div_eq_iff (by linarith)]
    ring
  have hmod : jsMod (-Real.pi) (2 * Real.pi) = -Real.pi := by
    unfold jsMod jsTrunc
    rw [hq, if_neg (by norm_num)]
    norm_num
  have hnorm : normalizeRotation (-Real.pi) = -Real.pi := by
    unfold normalizeRotation
    rw [hmod]
    dsimp only
    rw [if_neg (show ¬(-Real.pi > Real.pi) by linarith)]
    rw [if_neg (show ¬(-Real.pi < -Real.pi) from lt_irrefl _)]
  have hspec : specNormalize (-Real.pi) = Real.pi := by
    unfold specNormalize
    have hq2 : (-Real.pi - Real.pi) / (2 * Real.pi) = -1 := by
      rw [div_eq_iff (by linarith)]
      ring
    rw [hq2]
    have hc : ⌈(-1 : ℝ)⌉ = -1 := by
      have h1 : ((-1 : ℤ) : ℝ) = (-1 : ℝ) := by norm_num
      rw [← h1, Int.ceil_intCast]
    rw [hc]
    push_cast
    ring
  refine ⟨?_, hnorm, hspec, ?_⟩
  · have hd : angleDiff (-Real.pi) 2 = Real.pi + 2 := by
      unfold angleDiff
      rw [hnorm]
      rw [abs_of_nonpos (by linarith)]
      ring
    unfold classifyLanding
    rw [if_pos ⟨by rw [hd]; unfold CRASH_THRESHOLD; linarith, rfl⟩]
  · rw [hspec]
    unfold CRASH_THRESHOLD
    rw [abs_of_nonneg (by linarith)]
    intro hcon
    nlinarith

/-- C3 amended: on a new non-flight ground contact the classification is a
pure function of (rotation, ground angle, invincibility, backflip count);
the rotation is normalized into the closed interval `[-π, π]` (the value `-π`
itself occurring for negative odd multiples of `π`), congruent to the
original rotation modulo `2π`; crash holds iff the absolute difference
strictly exceeds the 70° threshold and the player is not invincible; with at
least one accumulated rotation, the boosted `300·count` bonus holds iff the
difference is strictly below the 30° threshold, else the `150·count` bonus;
a difference exactly at the crash threshold (70°) is not a crash, and
exactly at the perfect threshold (30°) is not perfect, as the two closing
instances show. -/
theorem C3_landing_classification (rot g : ℝ) (inv : Bool) (n : ℕ) :
    (-Real.pi ≤ normalizeRotation rot ∧ normalizeRotation rot ≤ Real.pi) ∧
    (∃ k : ℤ, normalizeRotation rot = rot - 2 * Real.pi * k) ∧
    (classifyLanding rot g inv n = LandingOutcome.crash ↔
      angleDiff rot g > CRASH_THRESHOLD ∧ inv = false) ∧
    (∀ pts, classifyLanding rot g inv n = LandingOutcome.perfect pts ↔
      ¬(angleDiff rot g > CRASH_THRESHOLD ∧ inv = false) ∧ 0 < n ∧
        angleDiff rot g < PERFECT_THRESHOLD ∧ pts = n * 300) ∧
    (∀ pts, classifyLanding rot g inv n = LandingOutcome.safe pts ↔
      ¬(angleDiff rot g > CRASH_THRESHOLD ∧ inv = false) ∧ 0 < n ∧
        ¬(angleDiff rot g < PERFECT_THRESHOLD) ∧ pts = n * 150) ∧
    angleDiff 0 (-(7 * Real.pi / 18)) = CRASH_THRESHOLD ∧
    classifyLanding 0 (-(7 * Real.pi / 18)) false 1 = LandingOutcome.safe 150 ∧
    angleDiff 0 (-(Real.pi / 6)) = PERFECT_THRESHOLD ∧
    classifyLanding 0 (-(Real.pi / 6)) false 1 = LandingOutcome.safe 150 := by
  have hpi := Real.pi_pos
  have hdC : angleDiff 0 (-(7 * Real.pi / 18)) = CRASH_THRESHOLD := by
    rw [angleDiff_zero_neg (7 * Real.pi / 18) (by linarith)]
    unfold CRASH_THRESHOLD
    ring
  have hdP : angleDiff 0 (-(Real.pi / 6)) = PERFECT_THRESHOLD := by
    rw [angleDiff_zero_neg (Real.pi / 6) (by linarith)]
    unfold PERFECT_THRESHOLD
    ring
  refine ⟨(normalizeRotation_range rot).1, (normalizeRotation_range rot).2,
    classify_crash_iff rot g inv n,
    fun pts => classify_perfect_iff rot g inv n pts,
    fun pts => classify_safe_iff rot g inv n pts,
    hdC, ?_, hdP, ?_⟩
  · unfold classifyLanding
    rw [if_neg (by rw [hdC]; exact fun hcon => lt_irrefl _ hcon.1),
      if_pos (by norm_num),
      if_neg (by rw [hdC]; unfold CRASH_THRESHOLD PERFECT_THRESHOLD; intro hcon; linarith)]
  · unfold classifyLanding
    rw [if_neg ?hA, if_pos (by norm_num), if_neg ?hB]
    case hA =>
      rw [hdP]
      unfold PERFECT_THRESHOLD CRASH_THRESHOLD
      intro hcon
      have := hcon.1
      linarith
    case hB =>
      rw [hdP]
      exact fun hcon => lt_irrefl _ hcon

/-! ### C2: the idle run dies exactly once

Helper lemmas about the idle-run session: the loop freezes after game over,
`playing` is monotone, `overCount` counts the single emission, the pursuit
gap shrinks once the hazard outruns the player, and the run therefore
terminates. -/

theorem runSession_succ_frozen (G dt : ℚ) (n : ℕ)
    (h : (runSession G dt n).playing = false) :
    runSession G dt (n + 1) = runSession G dt n := by
  show sessionStep G dt n (runSession G dt n) = runSession G dt n
  unfold sessionStep
  rw [if_neg (by simp [h])]

theorem runSession_succ_playing (G dt : ℚ) (n : ℕ)
    (h : (runSession G dt n).playing = true) :
    runSession G dt (n + 1) =
      { st := (idleTick G ((n : ℚ) * dt) (runSession G dt n).st).s
        playing := (idleTick G ((n : ℚ) * dt) (runSession G dt n).st).gameOver.isNone
        overCount := (runSession G dt n).overCount +
          (if (idleTick G ((n : ℚ) * dt) (runSession G dt n).st).gameOver.isSome
            then 1 else 0) } := by
  show sessionStep G dt n (runSession G dt n) = _
  unfold sessionStep
  rw [if_pos h]

theorem playing_of_succ (G dt : ℚ) (n : ℕ)
    (h : (runSession G dt (n + 1)).playing = true) :
    (runSession G dt n).playing = true := by
  by_contra hc
  have hf : (runSession G dt n).playing = false := by
    cases hq : (runSession G dt n).playing
    · rfl
    · exact absurd hq hc
  rw [runSession_succ_frozen G dt n hf, hf] at h
  exact Bool.noConfusion h

theorem playing_mono (G dt : ℚ) (m n : ℕ) (hmn : m ≤ n)
    (h : (runSession G dt n).playing = true) :
    (runSession G dt m).playing = true := by
  induction n with
  | zero => rwa [Nat.le_zero.mp hmn]
  | succ k ih =>
    rcases Nat.eq_or_lt_of_le hmn with rfl | hlt
    · exact h
    · exact ih (Nat.lt_succ_iff.mp hlt) (playing_of_succ G dt k h)

theorem idleTick_gameOver_none_iff (G e : ℚ) (st : IdleState) :
    (idleTick G e st).gameOver.isNone = true ↔
      ¬(avalancheStep (st.x + easeVx st.vx) st.av e false >
          st.x + easeVx st.vx - 30) := by
  unfold idleTick
  dsimp only
  by_cases h : avalancheStep (st.x + easeVx st.vx) st.av e false >
      st.x + easeVx st.vx - 30
  · simp [h]
  · simp [h]

theorem idleTick_dead_of_gameOver (G e : ℚ) (st : IdleState)
    (h : (idleTick G e st).gameOver.isNone = false) :
    (idleTick G e st).s.dead = true := by
  unfold idleTick at h ⊢
  dsimp only at h ⊢
  by_cases hd : avalancheStep (st.x + easeVx st.vx) st.av e false >
      st.x + easeVx st.vx - 30
  · simp [hd]
  · simp [hd] at h

theorem overCount_charn (G dt : ℚ) (n : ℕ) :
    (runSession G dt n).overCount =
      (if (runSession G dt n).playing = true then 0 else 1) := by
  induction n with
  | zero => rfl
  | succ m ih =>
    by_cases hp : (runSession G dt m).playing = true
    · rw [runSession_succ_playing G dt m hp]
      dsimp only
      rw [ih, if_pos hp]
      cases hgo : (idleTick G ((m : ℚ) * dt) (runSession G dt m).st).gameOver
      · simp [hgo]
      · simp [hgo]
    · have hf : (runSession G dt m).playing = false := by
        cases hq : (runSession G dt m).playing
        · rfl
        · exact absurd hq hp
      rw [runSession_succ_frozen G dt m hf, ih]

theorem easeVx_bounds (vx : ℚ) (h0 : 0 < vx) (h1 : vx ≤ 201 / 10) :
    0 < easeVx vx ∧ easeVx vx ≤ 201 / 10 := by
  unfold easeVx
  split_ifs with h <;> constructor <;> linarith

theorem run_vx_bounds (G dt : ℚ) (n : ℕ) :
    0 < (runSession G dt n).st.vx ∧ (runSession G dt n).st.vx ≤ 201 / 10 := by
  induction n with
  | zero => norm_num [runSession, initIdle]
  | succ m ih =>
    by_cases hp : (runSession G dt m).playing = true
    · rw [runSession_succ_playing G dt m hp]
      exact easeVx_bounds _ ih.1 ih.2
    · have hf : (runSession G dt m).playing = false := by
        cases hq : (runSession G dt m).playing
        · rfl
        · exact absurd hq hp
      rw [runSession_succ_frozen G dt m hf]
      exact ih

theorem avSpeed_false_eq (e : ℚ) : avSpeed e false = avTargetSpeedBase e := by
  simp [avSpeed]

theorem avTargetSpeedBase_ge_late (e : ℚ) (he : 90 ≤ e) :
    51 / 2 ≤ avTargetSpeedBase e := by
  unfold avTargetSpeedBase
  split_ifs <;> linarith

theorem idleTick_gap (G e : ℚ) (st : IdleState) :
    (idleTick G e st).s.x - (idleTick G e st).s.av =
      max (st.x - st.av + easeVx st.vx - avSpeed e false) (-100) := by
  show (st.x + easeVx st.vx) - avalancheStep (st.x + easeVx st.vx) st.av e false = _
  unfold avalancheStep
  dsimp only
  split_ifs with h
  · rw [max_eq_right (by linarith)]
    ring
  · rw [max_eq_left (by linarith)]
    ring

theorem run_gap_growth (G dt : ℚ) (hdt : 0 < dt) (n : ℕ) :
    (runSession G dt n).st.x - (runSession G dt n).st.av ≤
      900 + (n : ℚ) * (111 / 10) := by
  induction n with
  | zero => norm_num [runSession, initIdle]
  | succ m ih =>
    have hm0 : (0 : ℚ) ≤ (m : ℚ) := Nat.cast_nonneg m
    by_cases hp : (runSession G dt m).playing = true
    · rw [runSession_succ_playing G dt m hp]
      dsimp only
      rw [idleTick_gap, avSpeed_false_eq]
      have hvx := run_vx_bounds G dt m
      have hvx2 := easeVx_bounds _ hvx.1 hvx.2
      have hb := avTargetSpeedBase_ge_nine ((m : ℚ) * dt) (mul_nonneg hm0 hdt.le)
      push_cast
      apply max_le <;> linarith
    · have hf : (runSession G dt m).playing = false := by
        cases hq : (runSession G dt m).playing
        · rfl
        · exact absurd hq hp
      rw [runSession_succ_frozen G dt m hf]
      push_cast
      linarith

theorem playing_gap_ge (G dt : ℚ) (n : ℕ)
    (hp : (runSession G dt (n + 1)).playing = true) :
    30 ≤ (runSession G dt (n + 1)).st.x - (runSession G dt (n + 1)).st.av := by
  have hpn : (runSession G dt n).playing = true :=
    playing_of_succ G dt n hp
  rw [runSession_succ_playing G dt n hpn] at hp ⊢
  dsimp only at hp ⊢
  have hno := (idleTick_gameOver_none_iff G ((n : ℚ) * dt) (runSession G dt n).st).mp hp
  show 30 ≤ ((runSession G dt n).st.x + easeVx (runSession G dt n).st.vx) -
    avalancheStep ((runSession G dt n).st.x + easeVx (runSession G dt n).st.vx)
      (runSession G dt n).st.av ((n : ℚ) * dt) false
  push_neg at hno
  linarith

theorem run_gap_descent (G dt : ℚ) (hdt : 0 < dt) (N0 : ℕ)
    (hN0 : 90 ≤ (N0 : ℚ) * dt) :
    ∀ k : ℕ, (runSession G dt (N0 + k)).playing = true →
      (runSession G dt (N0 + k)).st.x - (runSession G dt (N0 + k)).st.av +
          (k : ℚ) * (27 / 5) ≤
        (runSession G dt N0).st.x - (runSession G dt N0).st.av := by
  intro k
  induction k with
  | zero =>
    intro _
    rw [Nat.add_zero]
    push_cast
    linarith
  | succ j ih =>
    intro hp
    have hp' : (runSession G dt (N0 + j)).playing = true :=
      playing_of_succ G dt (N0 + j) (by rwa [show N0 + (j + 1) = (N0 + j) + 1 by ring] at hp)
    have hih := ih hp'
    have hgap30 : 30 ≤ (runSession G dt ((N0 + j) + 1)).st.x -
        (runSession G dt ((N0 + j) + 1)).st.av :=
      playing_gap_ge G dt (N0 + j) (by rwa [show N0 + (j + 1) = (N0 + j) + 1 by ring] at hp)
    have hstep : (runSession G dt ((N0 + j) + 1)).st.x -
        (runSession G dt ((N0 + j) + 1)).st.av =
        max ((runSession G dt (N0 + j)).st.x - (runSession G dt (N0 + j)).st.av +
          easeVx (runSession G dt (N0 + j)).st.vx -
          avSpeed (((N0 + j : ℕ) : ℚ) * dt) false) (-100) := by
      rw [runSession_succ_playing G dt (N0 + j) hp']
      exact idleTick_gap G (((N0 + j : ℕ) : ℚ) * dt) (runSession G dt (N0 + j)).st
    have hvx := run_vx_bounds G dt (N0 + j)
    have hvx2 := easeVx_bounds _ hvx.1 hvx.2
    have hlate : 90 ≤ ((N0 + j : ℕ) : ℚ) * dt := by
      have : (N0 : ℚ) ≤ ((N0 + j : ℕ) : ℚ) := by push_cast; linarith [Nat.cast_nonneg (α := ℚ) j]
      calc (90 : ℚ) ≤ (N0 : ℚ) * dt := hN0
        _ ≤ ((N0 + j : ℕ) : ℚ) * dt := by
            exact mul_le_mul_of_nonneg_right this hdt.le
    have hsp : 51 / 2 ≤ avSpeed (((N0 + j : ℕ) : ℚ) * dt) false := by
      rw [avSpeed_false_eq]
      exact avTargetSpeedBase_ge_late _ hlate
    rw [show N0 + (j + 1) = (N0 + j) + 1 by ring] at hp ⊢
    rcases max_cases ((runSession G dt (N0 + j)).st.x -
        (runSession G dt (N0 + j)).st.av +
        easeVx (runSession G dt (N0 + j)).st.vx -
        avSpeed (((N0 + j : ℕ) : ℚ) * dt) false) (-100 : ℚ) with ⟨hmx, _⟩ | ⟨hmx, _⟩
    · rw [hmx] at hstep
      push_cast
      linarith
    · rw [hmx] at hstep
      linarith

theorem eventually_game_over (G dt : ℚ) (hdt : 0 < dt) :
    ∃ m, (runSession G dt m).playing = false := by
  by_contra hall
  push_neg at hall
  have hplay : ∀ m, (runSession G dt m).playing = true := by
    intro m
    cases hq : (runSession G dt m).playing
    · exact absurd hq (hall m)
    · rfl
  set N0 : ℕ := ⌈(90 : ℚ) / dt⌉₊ with hN0def
  have hN0 : 90 ≤ (N0 : ℚ) * dt := by
    have h1 : (90 : ℚ) / dt ≤ (N0 : ℚ) := Nat.le_ceil _
    calc (90 : ℚ) = 90 / dt * dt := by field_simp
      _ ≤ (N0 : ℚ) * dt := mul_le_mul_of_nonneg_right h1 hdt.le
  set B : ℚ := 900 + (N0 : ℚ) * (111 / 10) with hBdef
  have hBpos : 0 < B := by
    have : (0 : ℚ) ≤ (N0 : ℚ) := Nat.cast_nonneg N0
    rw [hBdef]
    linarith
  set K : ℕ := ⌈B⌉₊ + 1 with hKdef
  have hK1 : 1 ≤ K := by omega
  have hKB : B + 1 ≤ (K : ℚ) := by
    have := Nat.le_ceil B
    rw [hKdef]
    push_cast
    linarith
  have hdesc := run_gap_descent G dt hdt N0 hN0 K (hplay (N0 + K))
  have hgrow := run_gap_growth G dt hdt N0
  have hgap30 : 30 ≤ (runSession G dt (N0 + K)).st.x -
      (runSession G dt (N0 + K)).st.av := by
    have hKpred : N0 + K = (N0 + K - 1) + 1 := by omega
    rw [hKpred]
    exact playing_gap_ge G dt (N0 + K - 1) (by rw [← hKpred]; exact hplay (N0 + K))
  have hmul : (B + 1) * (27 / 5) ≤ (K : ℚ) * (27 / 5) :=
    mul_le_mul_of_nonneg_right hKB (by norm_num)
  have hK27 : B < (K : ℚ) * (27 / 5) := by linarith
  rw [← hBdef] at hgrow
  linarith

theorem frozen_forever (G dt : ℚ) (F m : ℕ) (hm : F ≤ m)
    (h : (runSession G dt F).playing = false) :
    runSession G dt m = runSession G dt F := by
  induction m with
  | zero => rw [Nat.le_zero.mp hm]
  | succ k ih =>
    rcases Nat.eq_or_lt_of_le hm with heq | hlt
    · rw [← heq]
    · have hk : F ≤ k := Nat.lt_succ_iff.mp hlt
      rw [runSession_succ_frozen G dt k (by rw [ih hk]; exact h), ih hk]

/-- C2: at the end of any tick on which the avalanche boundary exceeds
`player.x - 30`, the player is marked dead and the game-over notification
carries exactly `⌊player.x / 10⌋`; and in the idle scenario (flat ground of
height `G`, player never jumps, frame period `dt > 0` seconds) there is a
frame index `N` such that the session is PLAYING with no game-over up to and
including `N` and is stopped with exactly one delivered game-over — and a
dead player — strictly after `N`: the idle player inevitably dies and the
notification fires exactly once per run. -/
theorem C2_gameover_exactly_once (G dt : ℚ) (hdt : 0 < dt) :
    (∀ e st, (idleTick G e st).gameOver =
      (if (idleTick G e st).s.av > (idleTick G e st).s.x - 30
        then some ⌊(idleTick G e st).s.x / 10⌋ else none)) ∧
    (∀ e st, (idleTick G e st).s.dead =
      (st.dead || decide ((idleTick G e st).s.av > (idleTick G e st).s.x - 30))) ∧
    ∃ N : ℕ,
      (∀ m, m ≤ N → (runSession G dt m).playing = true ∧
        (runSession G dt m).overCount = 0) ∧
      (∀ m, N < m → (runSession G dt m).playing = false ∧
        (runSession G dt m).overCount = 1 ∧
        (runSession G dt m).st.dead = true) := by
  refine ⟨?_, ?_, ?_⟩
  · intro e st
    unfold idleTick
    dsimp only
    by_cases h : avalancheStep (st.x + easeVx st.vx) st.av e false >
        st.x + easeVx st.vx - 30
    · simp [h]
    · simp [h]
  · intro e st
    rfl
  · obtain ⟨m0, hm0⟩ := eventually_game_over G dt hdt
    have hex : ∃ m, (runSession G dt m).playing = false := ⟨m0, hm0⟩
    have hFspec : (runSession G dt (Nat.find hex)).playing = false := Nat.find_spec hex
    have hFmin : ∀ m, m < Nat.find hex → (runSession G dt m).playing = true := by
      intro m hm
      have hne := Nat.find_min hex hm
      cases hq : (runSession G dt m).playing
      · exact absurd hq hne
      · rfl
    have hF1 : 1 ≤ Nat.find hex := by
      by_contra hcon
      have h0 : Nat.find hex = 0 := by omega
      have hz : (runSession G dt 0).playing = true := rfl
      rw [h0, hz] at hFspec
      exact Bool.noConfusion hFspec
    refine ⟨Nat.find hex - 1, ?_, ?_⟩
    · intro m hm
      have hp := hFmin m (by omega)
      exact ⟨hp, by rw [overCount_charn, if_pos hp]⟩
    · intro m hm
      have hmF : Nat.find hex ≤ m := by omega
      have heq := frozen_forever G dt (Nat.find hex) m hmF hFspec
      have hpred : Nat.find hex = (Nat.find hex - 1) + 1 := by omega
      have hppred : (runSession G dt (Nat.find hex - 1)).playing = true :=
        hFmin (Nat.find hex - 1) (by omega)
      have hdead : (runSession G dt (Nat.find hex)).st.dead = true := by
        rw [hpred, runSession_succ_playing G dt (Nat.find hex - 1) hppred]
        dsimp only
        apply idleTick_dead_of_gameOver
        have hsp := hFspec
        rw [hpred, runSession_succ_playing G dt (Nat.find hex - 1) hppred] at hsp
        exact hsp
      rw [heq]
      refine ⟨hFspec, ?_, hdead⟩
      rw [overCount_charn, if_neg (by simp [hFspec])]

/-- Witness for C2: the theorem applied at flat ground height 0 and a frame
period of one second. -/
theorem C2_gameover_exactly_once_witness :
    (0 : ℚ) < 1 ∧
    ((∀ e st, (idleTick 0 e st).gameOver =
      (if (idleTick 0 e st).s.av > (idleTick 0 e st).s.x - 30
        then some ⌊(idleTick 0 e st).s.x / 10⌋ else none)) ∧
    (∀ e st, (idleTick 0 e st).s.dead =
      (st.dead || decide ((idleTick 0 e st).s.av > (idleTick 0 e st).s.x - 30))) ∧
    ∃ N : ℕ,
      (∀ m, m ≤ N → (runSession 0 1 m).playing = true ∧
        (runSession 0 1 m).overCount = 0) ∧
      (∀ m, N < m → (runSession 0 1 m).playing = false ∧
        (runSession 0 1 m).overCount = 1 ∧
        (runSession 0 1 m).st.dead = true)) :=
  ⟨by norm_num, C2_gameover_exactly_once 0 1 (by norm_num)⟩

/-- Witness for C1: the `initGame` state (x = 100, vx = 8, boundary -800) at
elapsed time 0. -/
theorem C1_boundary_monotone_clamped_witness :
    ((-800 : ℚ) ≤ 100 + 100 ∧ (0 : ℚ) ≤ 8 ∧ (0 : ℚ) ≤ 0) ∧
    ((-800 : ℚ) ≤ avalancheStep (100 + 8) (-800) 0 false ∧
      avalancheStep (100 + 8) (-800) 0 false ≤ (100 + 8) + 100) :=
  ⟨⟨by norm_num, by norm_num, le_refl 0⟩,
    C1_boundary_monotone_clamped 100 8 (-800) 0 false (by norm_num) (by norm_num) (le_refl 0)⟩

end DeliveryEscape
